import Mathlib

/-!
Shallow embedding of the tic-tac-toe application in `src/App.js`:
the pure win detector `calculateWinner`, the `Board` component's click
handler and status line, and the `Game` component's history state
(`history`, `currentMove`, `handlePlay`, `jumpTo`).

JS conventions modelled explicitly:
* a square holds `'X'`, `'O'` or `null`; we use `Option Mark`, with
  `none` for `null`.  Reading `squares[i]` out of range yields JS
  `undefined`, which is falsy exactly like `null`, so both are `none`;
* `currentMove` is a JS number used as an array index; we use `Int` so
  that out-of-range `jumpTo` arguments (including negative ones) are
  representable;
* a React callback that may or may not be invoked is modelled by an
  `Option` result: `none` means the callback was never called.
-/

namespace TicTacToe

/-- A player's mark, `'X'` or `'O'` in the JS source. -/
inductive Mark : Type where
  | X : Mark
  | O : Mark
  deriving DecidableEq, Repr, Fintype

/-- One square of the board: `null` (empty) or a mark. -/
abbrev Cell := Option Mark

/-- Reading `squares[i]` with JS semantics: an out-of-range read gives
`undefined`, which behaves like `null` in every test the source performs,
so both map to `none`. -/
def sq (squares : List Cell) (i : Nat) : Cell := (squares[i]?).getD none

/-- The `lines` array inside `calculateWinner`: 3 rows, 3 columns,
2 diagonals, in the source's order. -/
def lines : List (Nat × Nat × Nat) :=
  [(0, 1, 2), (3, 4, 5), (6, 7, 8), (0, 3, 6), (1, 4, 7), (2, 5, 8), (0, 4, 8), (2, 4, 6)]

/-- One iteration of the loop in `calculateWinner`: the test
`squares[a] && squares[a] === squares[b] && squares[a] === squares[c]`,
returning `squares[a]` when it passes. -/
def checkLine (squares : List Cell) (l : Nat × Nat × Nat) : Option Mark :=
  match sq squares l.1 with
  | none => none
  | some m => if sq squares l.2.1 = some m ∧ sq squares l.2.2 = some m then some m else none

/-- `calculateWinner(squares)`: scan the 8 lines in order and return the
first winning mark found, else `null`. -/
def calculateWinner (squares : List Cell) : Option Mark :=
  lines.findSome? (checkLine squares)

/-- `xIsNext ? 'X' : 'O'`: the mark placed by the player whose turn it is. -/
def turnMark (xIsNext : Bool) : Mark := if xIsNext then Mark.X else Mark.O

/-- `squares.slice()`: a fresh copy of the array (rebuilt cell by cell, as
the JS runtime copies element by element). -/
def sliceCopy (l : List Cell) : List Cell :=
  match l with
  | [] => []
  | x :: xs => x :: sliceCopy xs

/-- `Board`'s `handleClick(i)`.  Returns `none` when the click is rejected
(`calculateWinner(squares) || squares[i]` is truthy): the `onPlay` callback
is not invoked and nothing changes.  Returns `some nextSquares` when
`onPlay(nextSquares)` is invoked, where `nextSquares` is the copy
`squares.slice()` with slot `i` set to the current player's mark. -/
def handleClick (xIsNext : Bool) (squares : List Cell) (i : Nat) : Option (List Cell) :=
  if (calculateWinner squares).isSome || (sq squares i).isSome then none
  else some ((sliceCopy squares).set i (some (turnMark xIsNext)))

/-- Rendering of a mark into the status string. -/
def markString : Mark → String
  | Mark.X => "X"
  | Mark.O => "O"

/-- The `status` string computed by `Board`: `'Winner: ' + winner` when
`calculateWinner` reports one, else `'Next player: ' + (xIsNext ? 'X' : 'O')`. -/
def boardStatus (xIsNext : Bool) (squares : List Cell) : String :=
  match calculateWinner squares with
  | some w => "Winner: " ++ markString w
  | none => "Next player: " ++ markString (turnMark xIsNext)

/-- The `Game` component's state: `history` (array of board snapshots) and
`currentMove` (index into `history`, a JS number, hence `Int`). -/
structure GameState : Type where
  history : List (List Cell)
  currentMove : Int
  deriving DecidableEq, Repr

/-- The initial state: `history = [Array(9).fill(null)]`, `currentMove = 0`. -/
def initialState : GameState :=
  { history := [List.replicate 9 none], currentMove := 0 }

/-- `xIsNext = currentMove % 2 === 0`.  (Lean's `Int.emod` and JS `%` differ
on negative operands, but agree on whether the remainder by 2 is zero.) -/
def xIsNextOf (g : GameState) : Bool := g.currentMove % 2 == 0

/-- `currentSquares = history[currentMove]`; `none` models the JS
`undefined` obtained for an out-of-range index. -/
def currentSquaresOf (g : GameState) : Option (List Cell) :=
  if g.currentMove < 0 then none else g.history[g.currentMove.toNat]?

/-- JS `arr.slice(0, e)` for an integer `e`: a negative `e` counts from the
end of the array, otherwise the slice keeps indices `< e`. -/
def jsSliceTo {α : Type} (l : List α) (e : Int) : List α :=
  if e < 0 then l.take (((l.length : Int) + e).toNat) else l.take e.toNat

/-- `Game`'s `handlePlay(nextSquares)`:
`nextHistory = history.slice(0, currentMove + 1).concat([nextSquares])`,
then `history = nextHistory` and `currentMove = nextHistory.length - 1`. -/
def handlePlay (g : GameState) (nextSquares : List Cell) : GameState :=
  let nextHistory := jsSliceTo g.history (g.currentMove + 1) ++ [nextSquares]
  { history := nextHistory, currentMove := (nextHistory.length : Int) - 1 }

/-- `Game`'s `jumpTo(nextMove)`: sets `currentMove` with no validation of
any kind; `history` is untouched. -/
def jumpTo (g : GameState) (nextMove : Int) : GameState :=
  { g with currentMove := nextMove }

/-- One cell activation at index `i`, wiring `Game` to `Board`: `Board`
receives `xIsNext` and `currentSquares`, with `onPlay = handlePlay`.  A
rejected click leaves the state unchanged.  (The `none` branch for an
out-of-range `currentMove` is never exercised from reachable states.) -/
def clickStep (g : GameState) (i : Nat) : GameState :=
  match currentSquaresOf g with
  | none => g
  | some squares =>
    match handleClick (xIsNextOf g) squares i with
    | none => g
    | some ns => handlePlay g ns

/-- Session states reachable from the initial state by cell clicks (the UI
generates indices `0 ≤ i < 9`) and in-range history jumps (the UI generates
one button per history entry). -/
inductive Reachable : GameState → Prop where
  | init : Reachable initialState
  | click {g : GameState} (i : Nat) : Reachable g → i < 9 → Reachable (clickStep g i)
  | jump {g : GameState} (k : Int) : Reachable g → 0 ≤ k → k < (g.history.length : Int) →
      Reachable (jumpTo g k)

/-- `b'` is `b` with exactly one slot changed from empty to a mark. -/
def OneMoveDiff (b b' : List Cell) : Prop :=
  ∃ i, i < 9 ∧ sq b i = none ∧ (sq b' i).isSome = true ∧ ∀ j, j ≠ i → sq b' j = sq b j

/-- The line `l` is completely occupied by mark `m` on `squares`. -/
def LineWonBy (squares : List Cell) (l : Nat × Nat × Nat) (m : Mark) : Prop :=
  sq squares l.1 = some m ∧ sq squares l.2.1 = some m ∧ sq squares l.2.2 = some m

/-- The session invariant maintained by `Game` through normal play:
the first history entry is the empty board, the move pointer is in range,
every stored snapshot has 9 slots, and consecutive snapshots differ by
exactly one freshly placed mark. -/
structure Inv (g : GameState) : Prop where
  first : g.history[0]? = some (List.replicate 9 none)
  cm_lb : 0 ≤ g.currentMove
  cm_ub : g.currentMove < (g.history.length : Int)
  len9 : ∀ b ∈ g.history, b.length = 9
  chain : ∀ k b b', g.history[k]? = some b → g.history[k + 1]? = some b' → OneMoveDiff b b'

/-- The classic draw board used as a concrete test input:
row0 = X X O, row1 = O O X, row2 = X O X; no line is complete. -/
def drawBoard : List Cell :=
  [some Mark.X, some Mark.X, some Mark.O,
   some Mark.O, some Mark.O, some Mark.X,
   some Mark.X, some Mark.O, some Mark.X]

/-- A board whose top row is completed by X. -/
def xRowBoard : List Cell :=
  [some Mark.X, some Mark.X, some Mark.X,
   some Mark.O, some Mark.O, none, none, none, none]

/-- An unreachable board on which both the first row (X) and the second row
(O) are complete; the scan returns the first row's mark. -/
def doubleWinBoard : List Cell :=
  [some Mark.X, some Mark.X, some Mark.X,
   some Mark.O, some Mark.O, some Mark.O, none, none, none]

/-- Snapshots used by the truncation witness: X at 0, then O at 1, then the
branch snapshot O at 4 played after jumping back to move 1. -/
def histA : List Cell := (List.replicate 9 none).set 0 (some Mark.X)

def histB : List Cell := histA.set 1 (some Mark.O)

def histC : List Cell := histA.set 4 (some Mark.O)

lemma sliceCopy_eq (l : List Cell) : sliceCopy l = l := by
  induction l with
  | nil => rfl
  | cons x xs ih => simp [sliceCopy, ih]

instance (squares : List Cell) (l : Nat × Nat × Nat) (m : Mark) :
    Decidable (LineWonBy squares l m) := by
  unfold LineWonBy
  infer_instance

lemma checkLine_eq_some_iff (squares : List Cell) (l : Nat × Nat × Nat) (m : Mark) :
    checkLine squares l = some m ↔ LineWonBy squares l m := by
  cases h : sq squares l.1 with
  | none => simp [checkLine, LineWonBy, h]
  | some m' =>
    simp only [checkLine, LineWonBy, h]
    by_cases hbc : sq squares l.2.1 = some m' ∧ sq squares l.2.2 = some m'
    · rw [if_pos hbc]
      constructor
      · intro hcs
        obtain rfl : m' = m := by injection hcs
        exact ⟨rfl, hbc.1, hbc.2⟩
      · rintro ⟨h1, _, _⟩
        exact h1
    · rw [if_neg hbc]
      constructor
      · intro hcs
        exact absurd hcs (by simp)
      · rintro ⟨h1, h2, h3⟩
        obtain rfl : m' = m := by injection h1
        exact absurd ⟨h2, h3⟩ hbc

/-- C1: `calculateWinner` returns a winning mark exactly when one of the 8
fixed triples is completely occupied by a single mark, and `none` otherwise
(in particular on a full board with no complete triple). -/
theorem calculateWinner_correct (squares : List Cell) (h9 : squares.length = 9) :
    ((∃ l ∈ lines, ∃ m, LineWonBy squares l m) → (calculateWinner squares).isSome = true)
    ∧ (∀ m, calculateWinner squares = some m → ∃ l ∈ lines, LineWonBy squares l m)
    ∧ ((¬ ∃ l ∈ lines, ∃ m, LineWonBy squares l m) → calculateWinner squares = none) := by
  refine ⟨?_, ?_, ?_⟩
  · rintro ⟨l, hl, m, hm⟩
    rcases hw : calculateWinner squares with _ | w
    · rw [calculateWinner, List.findSome?_eq_none_iff] at hw
      exact absurd ((checkLine_eq_some_iff squares l m).mpr hm) (by simp [hw l hl])
    · rfl
  · intro m hm
    obtain ⟨l, hl, hcl⟩ := List.exists_of_findSome?_eq_some hm
    exact ⟨l, hl, (checkLine_eq_some_iff squares l m).mp hcl⟩
  · intro hno
    rcases hw : calculateWinner squares with _ | w
    · rfl
    · obtain ⟨l, hl, hcl⟩ := List.exists_of_findSome?_eq_some hw
      exact absurd ⟨l, hl, w, (checkLine_eq_some_iff squares l w).mp hcl⟩ hno

theorem calculateWinner_correct_witness :
    drawBoard.length = 9 ∧ calculateWinner drawBoard = none :=
  ⟨by decide, (calculateWinner_correct drawBoard (by decide)).2.2 (by decide)⟩

lemma sq_set_self (l : List Cell) (i : Nat) (c : Cell) (h : i < l.length) :
    sq (l.set i c) i = c := by
  unfold sq
  rw [List.getElem?_set_self h]
  rfl

lemma sq_set_ne (l : List Cell) (i j : Nat) (c : Cell) (h : j ≠ i) :
    sq (l.set i c) j = sq l j := by
  unfold sq
  rw [List.getElem?_set_ne (Ne.symm h)]

/-- Inversion of a successful `handleClick`: the callback argument is the
copied-and-updated array, and the clicked slot was empty (with no winner). -/
lemma handleClick_some_inv {x : Bool} {squares : List Cell} {i : Nat} {ns : List Cell}
    (h : handleClick x squares i = some ns) :
    ns = squares.set i (some (turnMark x)) ∧ sq squares i = none ∧
      calculateWinner squares = none := by
  by_cases hc : ((calculateWinner squares).isSome || (sq squares i).isSome) = true
  · rw [handleClick, if_pos hc] at h
    exact absurd h (by simp)
  · rw [handleClick, if_neg hc] at h
    simp only [Bool.or_eq_true, not_or, Option.not_isSome_iff_eq_none] at hc
    refine ⟨?_, hc.2, hc.1⟩
    rw [sliceCopy_eq] at h
    injection h with h'
    exact h'.symm

/-- C2: `Board`'s click handler is a no-op (the move callback is never
invoked) when the current snapshot already has a winner or slot `i` is
occupied; otherwise it invokes the callback exactly once, with a snapshot
equal to the current one except that slot `i` now holds the mark of the
player whose turn it is. -/
theorem handleClick_move_validation (x : Bool) (squares : List Cell) (i : Nat)
    (h9 : squares.length = 9) (hi : i < 9) :
    (((calculateWinner squares).isSome = true ∨ (sq squares i).isSome = true) →
      handleClick x squares i = none)
    ∧ (calculateWinner squares = none → sq squares i = none →
      ∃ ns, handleClick x squares i = some ns ∧ ns.length = 9 ∧
        sq ns i = some (turnMark x) ∧ ∀ j, j ≠ i → sq ns j = sq squares j) := by
  constructor
  · intro h
    unfold handleClick
    rcases h with h | h <;> simp [h]
  · intro hw hsq
    refine ⟨(sliceCopy squares).set i (some (turnMark x)), ?_, ?_, ?_, ?_⟩
    · unfold handleClick
      simp [hw, hsq]
    · rw [sliceCopy_eq, List.length_set]
      exact h9
    · rw [sliceCopy_eq]
      exact sq_set_self squares i _ (by omega)
    · intro j hj
      rw [sliceCopy_eq]
      exact sq_set_ne squares i j _ hj

theorem handleClick_move_validation_witness :
    handleClick false drawBoard 4 = none ∧
    handleClick true (List.replicate 9 none) 0 ≠ none := by
  refine ⟨(handleClick_move_validation false drawBoard 4 (by decide) (by decide)).1
    (Or.inr (by decide)), ?_⟩
  obtain ⟨ns, hns, -, -, -⟩ :=
    (handleClick_move_validation true (List.replicate 9 none) 0 (by decide) (by decide)).2
      (by decide) (by decide)
  rw [hns]
  simp

/-- C6: the status line reads `"Winner: "` plus the winning mark when the
win detector reports one, and `"Next player: "` plus the mark whose turn it
is otherwise. -/
theorem boardStatus_correct (x : Bool) (squares : List Cell) :
    (∀ w, calculateWinner squares = some w →
      boardStatus x squares = "Winner: " ++ markString w)
    ∧ (calculateWinner squares = none →
      boardStatus x squares = "Next player: " ++ markString (turnMark x)) := by
  constructor
  · intro w hw
    simp [boardStatus, hw]
  · intro hw
    simp [boardStatus, hw]

theorem boardStatus_correct_witness :
    boardStatus false xRowBoard = "Winner: " ++ markString Mark.X ∧
    boardStatus true (List.replicate 9 none) = "Next player: " ++ markString (turnMark true) :=
  ⟨(boardStatus_correct false xRowBoard).1 Mark.X (by decide),
   (boardStatus_correct true (List.replicate 9 none)).2 (by decide)⟩

/-- C8: a snapshot is never mutated: a successful click builds the new
snapshot on a copy (`squares.slice()`), the copy is element-wise equal to
the original, the original snapshot still shows slot `i` empty afterwards,
and the new snapshot is a different value from the input one. -/
theorem snapshot_immutable (x : Bool) (squares : List Cell) (i : Nat) (ns : List Cell)
    (h9 : squares.length = 9) (hi : i < 9)
    (h : handleClick x squares i = some ns) :
    ns = (sliceCopy squares).set i (some (turnMark x)) ∧
    sliceCopy squares = squares ∧
    sq squares i = none ∧
    ns ≠ squares := by
  obtain ⟨hns, hemp, -⟩ := handleClick_some_inv h
  refine ⟨by rw [sliceCopy_eq]; exact hns, sliceCopy_eq squares, hemp, ?_⟩
  intro heq
  have h1 : sq ns i = some (turnMark x) := by
    rw [hns]
    exact sq_set_self squares i _ (by omega)
  rw [heq, hemp] at h1
  exact Option.noConfusion h1

theorem snapshot_immutable_witness :
    sq (List.replicate 9 none) 4 = none ∧
    (sliceCopy (List.replicate 9 none)).set 4 (some (turnMark true)) ≠
      List.replicate 9 none :=
  ⟨(snapshot_immutable true (List.replicate 9 none) 4
      ((sliceCopy (List.replicate 9 none)).set 4 (some (turnMark true)))
      (by decide) (by decide) (by decide)).2.2.1,
   (snapshot_immutable true (List.replicate 9 none) 4
      ((sliceCopy (List.replicate 9 none)).set 4 (some (turnMark true)))
      (by decide) (by decide) (by decide)).2.2.2⟩

/-- C7: `jumpTo(k)` for an in-range `k` sets `currentMove` to `k` and leaves
the history sequence entirely unchanged. -/
theorem jumpTo_frame (g : GameState) (k : Int) (h0 : 0 ≤ k)
    (hlt : k < (g.history.length : Int)) :
    (jumpTo g k).currentMove = k ∧ (jumpTo g k).history = g.history :=
  ⟨rfl, rfl⟩

theorem jumpTo_frame_witness :
    (jumpTo initialState 0).currentMove = 0 ∧
    (jumpTo initialState 0).history = initialState.history :=
  jumpTo_frame initialState 0 (by decide) (by decide)

/-- C10: `jumpTo` performs no range validation at all: any integer `k`,
negative or past the end, is stored as `currentMove` verbatim, and the
derived active snapshot `history[currentMove]` is then undefined. -/
theorem jumpTo_no_validation (g : GameState) (k : Int) :
    (jumpTo g k).currentMove = k ∧ (jumpTo g k).history = g.history ∧
    ((k < 0 ∨ (g.history.length : Int) ≤ k) → currentSquaresOf (jumpTo g k) = none) := by
  refine ⟨rfl, rfl, ?_⟩
  intro h
  show (if k < 0 then none else g.history[k.toNat]?) = none
  rcases h with h | h
  · rw [if_pos h]
  · rw [if_neg (by omega)]
    exact List.getElem?_eq_none (by omega)

theorem jumpTo_no_validation_witness :
    (jumpTo initialState 5).currentMove = 5 ∧
    currentSquaresOf (jumpTo initialState 5) = none ∧
    currentSquaresOf (jumpTo initialState (-1)) = none :=
  ⟨(jumpTo_no_validation initialState 5).1,
   (jumpTo_no_validation initialState 5).2.2 (Or.inr (by decide)),
   (jumpTo_no_validation initialState (-1)).2.2 (Or.inl (by decide))⟩

lemma findSome?_eq_of_earlier_none {α β : Type} (f : α → Option β) :
    ∀ (l : List α) (j : Nat) (a : α) (b : β), l[j]? = some a → f a = some b →
      (∀ j' a', j' < j → l[j']? = some a' → f a' = none) → l.findSome? f = some b := by
  intro l
  induction l with
  | nil =>
    intro j a b hj
    simp at hj
  | cons x xs ih =>
    intro j a b hj hfa hearlier
    cases j with
    | zero =>
      rw [List.getElem?_cons_zero] at hj
      obtain rfl : x = a := by injection hj
      rw [List.findSome?_cons_of_isSome xs (by simp [hfa])]
      exact hfa
    | succ n =>
      have hx : f x = none := hearlier 0 x (Nat.succ_pos n) List.getElem?_cons_zero
      rw [List.findSome?_cons_of_isNone xs (by simp [hx])]
      refine ih n a b (by simpa using hj) hfa ?_
      intro j' a' hlt hget
      exact hearlier (j' + 1) a' (by omega) (by simpa using hget)

/-- C9: on an arbitrary (not necessarily reachable) board with several
complete triples, `calculateWinner` returns the mark of the earliest
complete triple in the fixed scan order (rows, then columns, then
diagonals). -/
theorem calculateWinner_scan_order (squares : List Cell) (j : Nat) (l : Nat × Nat × Nat)
    (m : Mark) (hj : lines[j]? = some l) (hwin : LineWonBy squares l m)
    (hearlier : ∀ j' l', j' < j → lines[j']? = some l' → ∀ m', ¬ LineWonBy squares l' m') :
    calculateWinner squares = some m := by
  refine findSome?_eq_of_earlier_none (checkLine squares) lines j l m hj
    ((checkLine_eq_some_iff squares l m).mpr hwin) ?_
  intro j' l' hlt hget
  cases hcl : checkLine squares l' with
  | none => rfl
  | some m' =>
    exact absurd ((checkLine_eq_some_iff squares l' m').mp hcl) (hearlier j' l' hlt hget m')

theorem calculateWinner_scan_order_witness :
    calculateWinner doubleWinBoard = some Mark.X :=
  calculateWinner_scan_order doubleWinBoard 0 (0, 1, 2) Mark.X (by decide) (by decide)
    (fun j' l' hlt => absurd hlt (Nat.not_lt_zero j'))

/-- The pieces of `handlePlay` on a state whose `currentMove` is in range:
the new history is the prefix up to `currentMove` plus the new snapshot,
its length is `currentMove + 2`, and `currentMove` advances by one. -/
lemma handlePlay_parts (g : GameState) (s : List Cell)
    (h0 : 0 ≤ g.currentMove) (hlt : g.currentMove < (g.history.length : Int)) :
    (handlePlay g s).history = g.history.take (g.currentMove.toNat + 1) ++ [s] ∧
    (handlePlay g s).history.length = g.currentMove.toNat + 2 ∧
    (handlePlay g s).currentMove = g.currentMove + 1 := by
  have htn : (g.currentMove + 1).toNat = g.currentMove.toNat + 1 := by omega
  have hhist : (handlePlay g s).history = g.history.take (g.currentMove.toNat + 1) ++ [s] := by
    show jsSliceTo g.history (g.currentMove + 1) ++ [s] = _
    rw [jsSliceTo, if_neg (by omega), htn]
  have hlen : (handlePlay g s).history.length = g.currentMove.toNat + 2 := by
    rw [hhist, List.length_append, List.length_take]
    simp only [List.length_singleton]
    omega
  refine ⟨hhist, hlen, ?_⟩
  show ((handlePlay g s).history.length : Int) - 1 = _
  rw [hlen]
  omega

lemma handlePlay_getElem?_of_le (g : GameState) (s : List Cell)
    (h0 : 0 ≤ g.currentMove) (hlt : g.currentMove < (g.history.length : Int))
    (k : Nat) (hk : k ≤ g.currentMove.toNat) :
    (handlePlay g s).history[k]? = g.history[k]? := by
  obtain ⟨hh, -, -⟩ := handlePlay_parts g s h0 hlt
  rw [hh, List.getElem?_append_left (by rw [List.length_take]; omega)]
  exact List.getElem?_take_of_lt (by omega)

lemma handlePlay_getElem?_last (g : GameState) (s : List Cell)
    (h0 : 0 ≤ g.currentMove) (hlt : g.currentMove < (g.history.length : Int)) :
    (handlePlay g s).history[g.currentMove.toNat + 1]? = some s := by
  obtain ⟨hh, -, -⟩ := handlePlay_parts g s h0 hlt
  have h1 : (g.history.take (g.currentMove.toNat + 1)).length = g.currentMove.toNat + 1 := by
    rw [List.length_take]
    omega
  have h2 := List.getElem?_concat_length (g.history.take (g.currentMove.toNat + 1)) s
  rw [h1] at h2
  rw [hh]
  exact h2

lemma handlePlay_getElem?_none (g : GameState) (s : List Cell)
    (h0 : 0 ≤ g.currentMove) (hlt : g.currentMove < (g.history.length : Int))
    (k : Nat) (hk : g.currentMove.toNat + 2 ≤ k) :
    (handlePlay g s).history[k]? = none := by
  obtain ⟨-, hl, -⟩ := handlePlay_parts g s h0 hlt
  exact List.getElem?_eq_none (by omega)

/-- C3: `handlePlay(s)` replaces `history` by the prefix
`history[0 .. currentMove]` followed by `s`, and points `currentMove` at the
new last entry; every entry previously stored past `currentMove` is gone
(reading any index past the new last entry yields nothing). -/
theorem handlePlay_truncates_and_appends (g : GameState) (s : List Cell)
    (h0 : 0 ≤ g.currentMove) (hlt : g.currentMove < (g.history.length : Int)) :
    (handlePlay g s).history = g.history.take (g.currentMove.toNat + 1) ++ [s] ∧
    (handlePlay g s).history.length = g.currentMove.toNat + 2 ∧
    (handlePlay g s).currentMove = ((handlePlay g s).history.length : Int) - 1 ∧
    (∀ k, k ≤ g.currentMove.toNat → (handlePlay g s).history[k]? = g.history[k]?) ∧
    (handlePlay g s).history[g.currentMove.toNat + 1]? = some s ∧
    (∀ k, g.currentMove.toNat + 2 ≤ k → (handlePlay g s).history[k]? = none) := by
  obtain ⟨hh, hl, hcm⟩ := handlePlay_parts g s h0 hlt
  refine ⟨hh, hl, ?_, ?_, ?_, ?_⟩
  · rw [hcm, hl]
    omega
  · intro k hk
    exact handlePlay_getElem?_of_le g s h0 hlt k hk
  · exact handlePlay_getElem?_last g s h0 hlt
  · intro k hk
    exact handlePlay_getElem?_none g s h0 hlt k hk

theorem handlePlay_truncates_and_appends_witness :
    (handlePlay ⟨[List.replicate 9 none, histA, histB], 1⟩ histC).history =
      [List.replicate 9 none, histA, histC] ∧
    (handlePlay ⟨[List.replicate 9 none, histA, histB], 1⟩ histC).history[3]? = none := by
  have h := handlePlay_truncates_and_appends ⟨[List.replicate 9 none, histA, histB], 1⟩ histC
    (by decide) (by decide)
  exact ⟨h.1.trans (by decide), h.2.2.2.2.2 3 (by decide)⟩

lemma oneMoveDiff_set (squares : List Cell) (i : Nat) (m : Mark) (h9 : squares.length = 9)
    (hi : i < 9) (hemp : sq squares i = none) :
    OneMoveDiff squares (squares.set i (some m)) := by
  refine ⟨i, hi, hemp, ?_, ?_⟩
  · rw [sq_set_self squares i _ (by omega)]
    rfl
  · intro j hj
    exact sq_set_ne squares i j _ hj

lemma inv_initial : Inv initialState := by
  refine ⟨rfl, le_refl 0, by decide, ?_, ?_⟩
  · intro b hb
    obtain rfl : b = List.replicate 9 none := by simpa [initialState] using hb
    simp
  · intro k b b' h1 h2
    rw [show initialState.history[k + 1]? = none from by
      exact List.getElem?_eq_none (by simp [initialState])] at h2
    exact Option.noConfusion h2

lemma inv_jump {g : GameState} (hInv : Inv g) {k : Int} (h0 : 0 ≤ k)
    (hlt : k < (g.history.length : Int)) : Inv (jumpTo g k) :=
  ⟨hInv.first, h0, hlt, hInv.len9, hInv.chain⟩

lemma inv_click {g : GameState} (hInv : Inv g) (i : Nat) (hi : i < 9) :
    Inv (clickStep g i) := by
  have h0 := hInv.cm_lb
  have hlt := hInv.cm_ub
  have hrange : g.currentMove.toNat < g.history.length := by omega
  have hcsq : currentSquaresOf g = g.history[g.currentMove.toNat]? := by
    unfold currentSquaresOf
    rw [if_neg (by omega)]
  unfold clickStep
  rw [hcsq, List.getElem?_eq_getElem hrange]
  set squares := g.history[g.currentMove.toNat] with hsqdef
  have hmem : squares ∈ g.history := List.getElem?_mem (List.getElem?_eq_getElem hrange)
  have h9 : squares.length = 9 := hInv.len9 squares hmem
  show Inv (match handleClick (xIsNextOf g) squares i with
    | none => g
    | some ns => handlePlay g ns)
  cases hhc : handleClick (xIsNextOf g) squares i with
  | none => exact hInv
  | some ns =>
    show Inv (handlePlay g ns)
    obtain ⟨hns, hemp, -⟩ := handleClick_some_inv hhc
    have hdiff : OneMoveDiff squares ns := by
      rw [hns]
      exact oneMoveDiff_set squares i _ h9 hi hemp
    obtain ⟨hh, hl, hcm⟩ := handlePlay_parts g ns h0 hlt
    refine ⟨?_, ?_, ?_, ?_, ?_⟩
    · rw [handlePlay_getElem?_of_le g ns h0 hlt 0 (Nat.zero_le _)]
      exact hInv.first
    · rw [hcm]
      omega
    · rw [hcm, hl]
      omega
    · intro b hb
      rw [hh] at hb
      rcases List.mem_append.mp hb with hmem' | hmem'
      · exact hInv.len9 b (List.take_subset _ _ hmem')
      · obtain rfl : b = ns := by simpa using hmem'
        rw [hns, List.length_set]
        exact h9
    · intro k b b' h1 h2
      have hk1 : k + 1 < g.currentMove.toNat + 2 := by
        by_contra hge
        rw [handlePlay_getElem?_none g ns h0 hlt (k + 1) (by omega)] at h2
        exact Option.noConfusion h2
      rcases Nat.lt_or_ge (k + 1) (g.currentMove.toNat + 1) with hlt2 | hge2
      · rw [handlePlay_getElem?_of_le g ns h0 hlt k (by omega)] at h1
        rw [handlePlay_getElem?_of_le g ns h0 hlt (k + 1) (by omega)] at h2
        exact hInv.chain k b b' h1 h2
      · have hkm : k = g.currentMove.toNat := by omega
        subst hkm
        rw [handlePlay_getElem?_of_le g ns h0 hlt _ (le_refl _)] at h1
        rw [handlePlay_getElem?_last g ns h0 hlt] at h2
        rw [List.getElem?_eq_getElem hrange] at h1
        obtain rfl : b = squares := by injection h1 with h1'; exact h1'.symm
        obtain rfl : b' = ns := by injection h2 with h2'; exact h2'.symm
        exact hdiff

lemma reachable_inv {g : GameState} (h : Reachable g) : Inv g := by
  induction h with
  | init => exact inv_initial
  | click i hr hi ih => exact inv_click ih i hi
  | jump k hr h0 hlt ih => exact inv_jump ih h0 hlt

/-- C4: in every session state reachable from the initial state by
`Board`-validated clicks and in-range jumps, `history[0]` is the all-empty
board and each later entry differs from its predecessor in exactly one slot,
changed from empty to a mark. -/
theorem reachable_history_invariant (g : GameState) (h : Reachable g) :
    g.history[0]? = some (List.replicate 9 none) ∧
    ∀ k b b', g.history[k]? = some b → g.history[k + 1]? = some b' → OneMoveDiff b b' :=
  ⟨(reachable_inv h).first, (reachable_inv h).chain⟩

theorem reachable_history_invariant_witness :
    (clickStep initialState 4).history[0]? = some (List.replicate 9 none) ∧
    OneMoveDiff (List.replicate 9 none) ((List.replicate 9 none).set 4 (some Mark.X)) := by
  have h := reachable_history_invariant (clickStep initialState 4)
    (Reachable.click 4 Reachable.init (by omega))
  exact ⟨h.1, h.2 0 (List.replicate 9 none) ((List.replicate 9 none).set 4 (some Mark.X))
    (by decide) (by decide)⟩

lemma parity_flip (a : Int) : ((a + 1) % 2 == 0) = !(a % 2 == 0) := by
  by_cases hc : a % 2 = 0
  · have h1 : (a + 1) % 2 = 1 := by omega
    rw [hc, h1]
    rfl
  · have h0 : a % 2 = 1 := by omega
    have h1 : (a + 1) % 2 = 0 := by omega
    rw [h0, h1]
    rfl

/-- C5: in every reachable session state the next player is X exactly when
`currentMove` is even; each successful move flips the turn, and after an
in-range `jumpTo k` the next player is X exactly when `k` is even. -/
theorem turn_parity (g : GameState) (h : Reachable g) :
    (xIsNextOf g = true ↔ Even g.currentMove) ∧
    (∀ ns, xIsNextOf (handlePlay g ns) = !xIsNextOf g) ∧
    (∀ k : Int, 0 ≤ k → k < (g.history.length : Int) →
      (xIsNextOf (jumpTo g k) = true ↔ Even k)) := by
  refine ⟨?_, ?_, ?_⟩
  · rw [Int.even_iff]
    exact beq_iff_eq
  · intro ns
    obtain ⟨-, -, hcm⟩ := handlePlay_parts g ns (reachable_inv h).cm_lb (reachable_inv h).cm_ub
    show ((handlePlay g ns).currentMove % 2 == 0) = !(g.currentMove % 2 == 0)
    rw [hcm]
    exact parity_flip g.currentMove
  · intro k h0 hlt
    rw [Int.even_iff]
    exact beq_iff_eq

theorem turn_parity_witness :
    xIsNextOf initialState = true ∧
    xIsNextOf (handlePlay initialState ((List.replicate 9 none).set 0 (some Mark.X))) =
      !xIsNextOf initialState ∧
    xIsNextOf (jumpTo initialState 0) = true :=
  ⟨(turn_parity initialState Reachable.init).1.mpr ⟨0, rfl⟩,
   (turn_parity initialState Reachable.init).2.1 ((List.replicate 9 none).set 0 (some Mark.X)),
   ((turn_parity initialState Reachable.init).2.2 0 (by decide) (by decide)).mpr ⟨0, rfl⟩⟩

end TicTacToe
